import Mathlib

/-!
Shallow embedding of the note-thread component repository.

The repository contains three near-duplicate LWC view-models:
  * `src/unnamed/part_000`  — basic variant (class `Note`), namespace `PartZero` below;
  * `src/note.js`           — variant with expansion-state carry-over and per-node
                              linked-record enrichment (class `Note`), namespace `NoteJs`;
  * `src/noteComponent.js`  — variant with two expansion states and reply-count labels
                              (class `NoteComponent`), namespace `NoteComponent`.

Modelling conventions:
  * Apex record fields are copied verbatim by the JS code; they are modelled as a
    `NoteRecord` structure with the source field names.  `Parent_Note__c` is an
    `Option String` because it is absent (`undefined`/`null`) on root notes, and a JS
    `Map.has(undefined)` lookup is `false`; `none` reproduces that.
  * The raw argument of `processNotes` may be `null`/`undefined` or a non-array value;
    `RawNotes` has explicit constructors for those degenerate cases, mirroring the
    guard `if (!rawNotes || !Array.isArray(rawNotes)) return []` present in all three
    variants.
  * A settled outcome of the remote `getLinkedRecords({noteId})` promise is a
    `FetchResult`: `ok rs` (resolved with an array), `nullResult` (resolved with a
    null/undefined payload, which the JS guard `linkedRecords && linkedRecords.length`
    treats like an empty array), or `err` (rejected).  The enrichment coordinator is
    then a pure function of a `fetch : String → FetchResult` environment: concurrency
    is irrelevant to the final state because each per-node promise mutates only its
    own node, so the `Promise.all` join is modelled by applying the settled outcome to
    every node of the returned tree.
  * `new Date(s).toLocaleDateString('en-US', …)` never throws for any string `s`
    (an unparsable date yields the string "Invalid Date"); it is modelled as an
    arbitrary total host function `formatDate : String → String` passed as a
    parameter.
  * `' '.repeat(Math.max(0, 80 - title.length))` is modelled with truncated `Nat`
    subtraction, which computes exactly `max 0 (80 - length)`.
  * The JS `Map` built by `forEach(… set(id, v))` is last-entry-wins; lookups are
    modelled by `List.find?` on the reversed source list.
  * An `async` function body whose failures are caught is modelled with an
    `Except String` result: `.ok` is a resolved promise, `.error` a rejected one.
-/

/-- A linked-record row returned by `getLinkedRecords` / `searchRecords`. -/
structure LinkedRecord where
  Id : String
  Name : String
  RelatedObject : String
deriving DecidableEq

/-- A raw note row as returned by the Apex `getNotes` call; field names follow the
source.  `CreatedDate` is kept as the raw (possibly malformed) timestamp string;
`CreatedBy` stands for the creator display data, copied opaquely. -/
structure NoteRecord where
  Id : String
  Title__c : String
  Category__c : String
  Body__c : String
  Parent_Note__c : Option String
  Is_Reply__c : Bool
  Thread_Count__c : Option Int
  CreatedDate : String
  CreatedBy : String
deriving DecidableEq

/-- The argument actually handed to `processNotes`: an array of rows, or one of the
degenerate values (`null`/`undefined`, or a non-array value) its guard rejects. -/
inductive RawNotes where
  | nullish
  | nonArray
  | arr (notes : List NoteRecord)
deriving DecidableEq

/-- Settled outcome of one `getLinkedRecords({noteId})` call. -/
inductive FetchResult where
  | ok (records : List LinkedRecord)
  | nullResult
  | err
deriving DecidableEq

/-- Shared body of `loadRelatedRecordsForNote` (textually identical in `src/note.js`
lines 190–208 and `src/noteComponent.js` lines 219–237): the display text and the
linked-record list a node receives once its fetch settles. -/
def resolveRelated (fetch : String → FetchResult) (id : String) :
    String × List LinkedRecord :=
  match fetch id with
  | .ok rs =>
      if rs.length > 0 then (String.intercalate ", " (rs.map LinkedRecord.Name), rs)
      else ("Current record only", [])
  | .nullResult => ("Current record only", [])
  | .err => ("Error loading related records", [])

namespace PartZero

/-- Reply node built by the second pass of `processNotes` in `src/unnamed/part_000`
(lines 117–127): a plain field-for-field copy of the record. -/
structure ReplyNote where
  Id : String
  Title__c : String
  Category__c : String
  Body__c : String
  Parent_Note__c : Option String
  Is_Reply__c : Bool
  Thread_Count__c : Option Int
  CreatedDate : String
  CreatedBy : String
deriving DecidableEq

/-- Root node built by the first pass of `processNotes` in `src/unnamed/part_000`
(lines 94–105): a copy of the record plus an (initially empty) reply list. -/
structure ParentNote where
  Id : String
  Title__c : String
  Category__c : String
  Body__c : String
  Parent_Note__c : Option String
  Is_Reply__c : Bool
  Thread_Count__c : Option Int
  CreatedDate : String
  CreatedBy : String
  replies : List ReplyNote
deriving DecidableEq

/-- The reply-object literal of the second pass. -/
def mkReplyNote (n : NoteRecord) : ReplyNote :=
  { Id := n.Id, Title__c := n.Title__c, Category__c := n.Category__c,
    Body__c := n.Body__c, Parent_Note__c := n.Parent_Note__c,
    Is_Reply__c := n.Is_Reply__c, Thread_Count__c := n.Thread_Count__c,
    CreatedDate := n.CreatedDate, CreatedBy := n.CreatedBy }

/-- The parent-object literal of the first pass. -/
def mkParentNote (n : NoteRecord) : ParentNote :=
  { Id := n.Id, Title__c := n.Title__c, Category__c := n.Category__c,
    Body__c := n.Body__c, Parent_Note__c := n.Parent_Note__c,
    Is_Reply__c := n.Is_Reply__c, Thread_Count__c := n.Thread_Count__c,
    CreatedDate := n.CreatedDate, CreatedBy := n.CreatedBy, replies := [] }

/-- `noteMap.get(parentId).replies.push(reply)`.  The `Map` entry for a duplicated id
is the object stored by the latest `set`, so the push lands on the **last** root in
the list whose `Id` matches; with globally unique ids this is the unique match. -/
def pushReplyLast : List ParentNote → String → ReplyNote → List ParentNote
  | [], _, _ => []
  | r :: rs, p, rep =>
    if rs.any (fun q => q.Id == p) then r :: pushReplyLast rs p rep
    else if r.Id == p then { r with replies := r.replies ++ [rep] } :: rs
    else r :: pushReplyLast rs p rep

/-- One step of the second pass (part_000 lines 114–132):
`if (note.Is_Reply__c && noteMap.has(note.Parent_Note__c)) … push(replyNote)`.
`noteMap` holds exactly the ids of the roots, unchanged during the second pass, so
the `has` test is membership among the current root ids. -/
def addReply (roots : List ParentNote) (n : NoteRecord) : List ParentNote :=
  match n.Parent_Note__c with
  | some p =>
      if n.Is_Reply__c && roots.any (fun r => r.Id == p) then
        pushReplyLast roots p (mkReplyNote n)
      else roots
  | none => roots

/-- The whole second pass: `rawNotes.forEach(…)`. -/
def addReplies : List NoteRecord → List ParentNote → List ParentNote
  | [], roots => roots
  | n :: ns, roots => addReplies ns (addReply roots n)

/-- `processNotes` of `src/unnamed/part_000` (lines 76–136): guard, first pass
building the roots in input order (and the id map), second pass attaching replies. -/
def processNotes (raw : RawNotes) : List ParentNote :=
  match raw with
  | .nullish => []
  | .nonArray => []
  | .arr rawNotes =>
      let parentNotes := (rawNotes.filter (fun n => !n.Is_Reply__c)).map mkParentNote
      addReplies rawNotes parentNotes

/-- The component fields `loadNotes` of part_000 reads and writes. -/
structure ComponentState where
  recordId : Option String
  objectApiName : Option String
  notes : List ParentNote
  toasts : List String
deriving DecidableEq

/-- `loadNotes` of `src/unnamed/part_000` (lines 54–74): early return when the host
ids are missing; on a resolved `getNotes` the processed tree replaces `this.notes`;
on a rejected `getNotes` the `.catch` handler only shows a toast — the promise chain
itself resolves and `this.notes` is left unchanged. -/
def loadNotes (getNotesResult : Except String RawNotes) (st : ComponentState) :
    Except String ComponentState :=
  if st.recordId.isNone || st.objectApiName.isNone then .ok st
  else
    match getNotesResult with
    | .ok raw => .ok { st with notes := processNotes raw }
    | .error msg =>
        .ok { st with toasts := st.toasts ++ ["Failed to load notes: " ++ msg] }

end PartZero

namespace NoteJs

/-- Reply node built by the second pass of `processNotes` in `src/note.js`
(lines 147–160): a copy of the record plus the enrichment placeholders
(`relatedRecordsDisplay = ''`, `linkedRecords = null`, `isLoading = true`). -/
structure ReplyNote where
  Id : String
  Title__c : String
  Category__c : String
  Body__c : String
  Parent_Note__c : Option String
  Is_Reply__c : Bool
  Thread_Count__c : Option Int
  CreatedDate : String
  CreatedBy : String
  relatedRecordsDisplay : String
  linkedRecords : Option (List LinkedRecord)
  isLoading : Bool
deriving DecidableEq

/-- Root node built by the first pass of `processNotes` in `src/note.js`
(lines 120–137): record copy, formatted title, enrichment placeholders, reply list
and the replies-expansion UI state. -/
structure ParentNote where
  Id : String
  Title__c : String
  titleWithDate : String
  Category__c : String
  Body__c : String
  Parent_Note__c : Option String
  Is_Reply__c : Bool
  Thread_Count__c : Option Int
  CreatedDate : String
  CreatedBy : String
  relatedRecordsDisplay : String
  linkedRecords : Option (List LinkedRecord)
  isLoading : Bool
  replies : List ReplyNote
  repliesExpanded : Bool
  repliesSectionClass : String
deriving DecidableEq

/-- `currentExpansionStates.get(note.Id) || false`, where the `Map` was filled by
`this.notes.forEach(note => set(note.Id, note.repliesExpanded))` — last entry wins,
missing entry (`undefined || false`) yields `false`. -/
def lookupExpanded (prior : List ParentNote) (id : String) : Bool :=
  match prior.reverse.find? (fun p => p.Id == id) with
  | some p => p.repliesExpanded
  | none => false

/-- The reply-object literal of the second pass (note.js lines 147–160). -/
def mkReplyNote (n : NoteRecord) : ReplyNote :=
  { Id := n.Id, Title__c := n.Title__c, Category__c := n.Category__c,
    Body__c := n.Body__c, Parent_Note__c := n.Parent_Note__c,
    Is_Reply__c := n.Is_Reply__c, Thread_Count__c := n.Thread_Count__c,
    CreatedDate := n.CreatedDate, CreatedBy := n.CreatedBy,
    relatedRecordsDisplay := "", linkedRecords := none, isLoading := true }

/-- The parent-object literal of the first pass (note.js lines 104–137).
`formatDate` stands for `d => new Date(d).toLocaleDateString('en-US', …)`, a total
host function; `titlePadding = ' '.repeat(Math.max(0, 80 - title.length))` is the
truncated `Nat` subtraction. -/
def mkParentNote (formatDate : String → String) (prior : List ParentNote)
    (n : NoteRecord) : ParentNote :=
  let wasExpanded := lookupExpanded prior n.Id
  let formattedDate := formatDate n.CreatedDate
  let titlePadding := String.mk (List.replicate (80 - n.Title__c.length) ' ')
  { Id := n.Id, Title__c := n.Title__c,
    titleWithDate := n.Title__c ++ titlePadding ++ formattedDate,
    Category__c := n.Category__c, Body__c := n.Body__c,
    Parent_Note__c := n.Parent_Note__c, Is_Reply__c := n.Is_Reply__c,
    Thread_Count__c := n.Thread_Count__c, CreatedDate := n.CreatedDate,
    CreatedBy := n.CreatedBy,
    relatedRecordsDisplay := "", linkedRecords := none, isLoading := true,
    replies := [], repliesExpanded := wasExpanded,
    repliesSectionClass :=
      if wasExpanded then "slds-section slds-is-open"
      else "slds-section slds-is-close" }

/-- `noteMap.get(parentId).replies.push(reply)` — see `PartZero.pushReplyLast`. -/
def pushReplyLast : List ParentNote → String → ReplyNote → List ParentNote
  | [], _, _ => []
  | r :: rs, p, rep =>
    if rs.any (fun q => q.Id == p) then r :: pushReplyLast rs p rep
    else if r.Id == p then { r with replies := r.replies ++ [rep] } :: rs
    else r :: pushReplyLast rs p rep

/-- One step of the second pass (note.js lines 145–163). -/
def addReply (roots : List ParentNote) (n : NoteRecord) : List ParentNote :=
  match n.Parent_Note__c with
  | some p =>
      if n.Is_Reply__c && roots.any (fun r => r.Id == p) then
        pushReplyLast roots p (mkReplyNote n)
      else roots
  | none => roots

/-- The whole second pass: `rawNotes.forEach(…)`. -/
def addReplies : List NoteRecord → List ParentNote → List ParentNote
  | [], roots => roots
  | n :: ns, roots => addReplies ns (addReply roots n)

/-- The synchronous build part of `processNotes` (note.js lines 89–163): snapshot of
the prior expansion states, first pass over the non-reply records in input order,
second pass attaching replies.  (The `expandedSectionNames` accumulator only feeds
the accordion side channel `this.expandedSections` and is not part of the returned
tree.) -/
def buildNotes (formatDate : String → String) (prior : List ParentNote)
    (rawNotes : List NoteRecord) : List ParentNote :=
  let parentNotes :=
    (rawNotes.filter (fun n => !n.Is_Reply__c)).map (mkParentNote formatDate prior)
  addReplies rawNotes parentNotes

/-- `loadRelatedRecordsForNote` (note.js lines 190–208) applied to a parent node:
whatever way the per-node fetch settles, the display text and the linked-record list
are written and `isLoading` is cleared. -/
def loadRelatedRecordsForNote (fetch : String → FetchResult) (n : ParentNote) :
    ParentNote :=
  let e := resolveRelated fetch n.Id
  { n with relatedRecordsDisplay := e.1, linkedRecords := some e.2,
           isLoading := false }

/-- `loadRelatedRecordsForNote` applied to a reply node (the JS function is
duck-typed over both node shapes). -/
def loadRelatedRecordsForReply (fetch : String → FetchResult) (n : ReplyNote) :
    ReplyNote :=
  let e := resolveRelated fetch n.Id
  { n with relatedRecordsDisplay := e.1, linkedRecords := some e.2,
           isLoading := false }

/-- `loadAllRelatedRecords` (note.js lines 174–188): one fetch per root and per
reply, `Promise.all` joined.  Each per-node promise mutates only its own node, so
the settled tree applies the per-node outcome to every root and every reply. -/
def loadAllRelatedRecords (fetch : String → FetchResult)
    (roots : List ParentNote) : List ParentNote :=
  roots.map (fun r =>
    { loadRelatedRecordsForNote fetch r with
        replies := r.replies.map (loadRelatedRecordsForReply fetch) })

/-- `processNotes` of `src/note.js` (lines 86–172): guard, synchronous build, then
`await this.loadAllRelatedRecords(parentNotes)` before the tree is returned. -/
def processNotes (formatDate : String → String) (prior : List ParentNote)
    (fetch : String → FetchResult) (raw : RawNotes) : List ParentNote :=
  match raw with
  | .nullish => []
  | .nonArray => []
  | .arr rawNotes => loadAllRelatedRecords fetch (buildNotes formatDate prior rawNotes)

/-- The component fields `loadNotes` of note.js reads and writes. -/
structure ComponentState where
  recordId : Option String
  objectApiName : Option String
  notes : List ParentNote
  isLoading : Bool
  toasts : List String
deriving DecidableEq

/-- `loadNotes` of `src/note.js` (lines 57–78): early return when the host ids are
missing; otherwise `try { this.notes = await this.processNotes(result) } catch
{ toast; this.notes = [] } finally { this.isLoading = false }`.  The `catch` block
swallows a rejected `getNotes`: the async function itself always resolves (`.ok`),
and on failure the empty list **replaces** `this.notes`. -/
def loadNotes (formatDate : String → String)
    (getNotesResult : Except String RawNotes) (fetch : String → FetchResult)
    (st : ComponentState) : Except String ComponentState :=
  if st.recordId.isNone || st.objectApiName.isNone then .ok st
  else
    match getNotesResult with
    | .ok raw =>
        .ok { st with notes := processNotes formatDate st.notes fetch raw,
                      isLoading := false }
    | .error msg =>
        .ok { st with toasts := st.toasts ++ ["Failed to load notes: " ++ msg],
                      notes := [], isLoading := false }

end NoteJs

namespace NoteComponent

/-- Reply node built by the second pass of `processNotes` in `src/noteComponent.js`
(lines 166–179). -/
structure ReplyNote where
  Id : String
  Title__c : String
  Category__c : String
  Body__c : String
  Parent_Note__c : Option String
  Is_Reply__c : Bool
  Thread_Count__c : Option Int
  CreatedDate : String
  CreatedBy : String
  relatedRecordsDisplay : String
  linkedRecords : Option (List LinkedRecord)
  isLoading : Bool
deriving DecidableEq

/-- Root node built by the first pass of `processNotes` in `src/noteComponent.js`
(lines 136–156): like the note.js one plus `formattedDateTime`, the reply-count
button label and the main-note expansion state `isExpanded`. -/
structure ParentNote where
  Id : String
  Title__c : String
  titleWithDate : String
  formattedDateTime : String
  Category__c : String
  Body__c : String
  Parent_Note__c : Option String
  Is_Reply__c : Bool
  Thread_Count__c : Option Int
  CreatedDate : String
  CreatedBy : String
  relatedRecordsDisplay : String
  linkedRecords : Option (List LinkedRecord)
  isLoading : Bool
  replies : List ReplyNote
  repliesExpanded : Bool
  repliesSectionClass : String
  repliesButtonLabel : String
  isExpanded : Bool
deriving DecidableEq

/-- `currentRepliesExpansion.get(note.Id) || false`; the map was filled with
`note.repliesExpanded || false`, which on a boolean is the identity. -/
def lookupRepliesExpanded (prior : List ParentNote) (id : String) : Bool :=
  match prior.reverse.find? (fun p => p.Id == id) with
  | some p => p.repliesExpanded
  | none => false

/-- `currentNoteExpansion.get(note.Id) !== false`; the map was filled with
`note.isExpanded !== false`, the identity on a boolean; a missing entry
(`undefined !== false`) defaults to `true`. -/
def lookupIsExpanded (prior : List ParentNote) (id : String) : Bool :=
  match prior.reverse.find? (fun p => p.Id == id) with
  | some p => p.isExpanded
  | none => true

/-- The reply-object literal of the second pass (noteComponent.js lines 166–179). -/
def mkReplyNote (n : NoteRecord) : ReplyNote :=
  { Id := n.Id, Title__c := n.Title__c, Category__c := n.Category__c,
    Body__c := n.Body__c, Parent_Note__c := n.Parent_Note__c,
    Is_Reply__c := n.Is_Reply__c, Thread_Count__c := n.Thread_Count__c,
    CreatedDate := n.CreatedDate, CreatedBy := n.CreatedBy,
    relatedRecordsDisplay := "", linkedRecords := none, isLoading := true }

/-- The parent-object literal of the first pass (noteComponent.js lines 119–156). -/
def mkParentNote (formatDate : String → String) (prior : List ParentNote)
    (n : NoteRecord) : ParentNote :=
  let repliesExpanded := lookupRepliesExpanded prior n.Id
  let noteExpanded := lookupIsExpanded prior n.Id
  let formattedDate := formatDate n.CreatedDate
  { Id := n.Id, Title__c := n.Title__c,
    titleWithDate := n.Title__c ++ " - " ++ formattedDate,
    formattedDateTime := formattedDate,
    Category__c := n.Category__c, Body__c := n.Body__c,
    Parent_Note__c := n.Parent_Note__c, Is_Reply__c := n.Is_Reply__c,
    Thread_Count__c := n.Thread_Count__c, CreatedDate := n.CreatedDate,
    CreatedBy := n.CreatedBy,
    relatedRecordsDisplay := "", linkedRecords := none, isLoading := true,
    replies := [], repliesExpanded := repliesExpanded,
    repliesSectionClass :=
      if repliesExpanded then "slds-section slds-is-open"
      else "slds-section slds-is-close",
    repliesButtonLabel := "", isExpanded := noteExpanded }

/-- `noteMap.get(parentId).replies.push(reply)` — see `PartZero.pushReplyLast`. -/
def pushReplyLast : List ParentNote → String → ReplyNote → List ParentNote
  | [], _, _ => []
  | r :: rs, p, rep =>
    if rs.any (fun q => q.Id == p) then r :: pushReplyLast rs p rep
    else if r.Id == p then { r with replies := r.replies ++ [rep] } :: rs
    else r :: pushReplyLast rs p rep

/-- One step of the second pass (noteComponent.js lines 164–182). -/
def addReply (roots : List ParentNote) (n : NoteRecord) : List ParentNote :=
  match n.Parent_Note__c with
  | some p =>
      if n.Is_Reply__c && roots.any (fun r => r.Id == p) then
        pushReplyLast roots p (mkReplyNote n)
      else roots
  | none => roots

/-- The whole second pass: `rawNotes.forEach(…)`. -/
def addReplies : List NoteRecord → List ParentNote → List ParentNote
  | [], roots => roots
  | n :: ns, roots => addReplies ns (addReply roots n)

/-- The label pass (noteComponent.js lines 185–189): after the replies are attached,
nodes with at least one reply get a "N reply/replies" button label. -/
def setButtonLabel (r : ParentNote) : ParentNote :=
  if r.replies.length > 0 then
    { r with repliesButtonLabel :=
        toString r.replies.length ++ " " ++
          (if r.replies.length == 1 then "reply" else "replies") }
  else r

/-- The synchronous build part of `processNotes` (noteComponent.js lines 101–192). -/
def buildNotes (formatDate : String → String) (prior : List ParentNote)
    (rawNotes : List NoteRecord) : List ParentNote :=
  let parentNotes :=
    (rawNotes.filter (fun n => !n.Is_Reply__c)).map (mkParentNote formatDate prior)
  (addReplies rawNotes parentNotes).map setButtonLabel

/-- `loadRelatedRecordsForNote` (noteComponent.js lines 219–237), parent shape. -/
def loadRelatedRecordsForNote (fetch : String → FetchResult) (n : ParentNote) :
    ParentNote :=
  let e := resolveRelated fetch n.Id
  { n with relatedRecordsDisplay := e.1, linkedRecords := some e.2,
           isLoading := false }

/-- `loadRelatedRecordsForNote` applied to a reply node. -/
def loadRelatedRecordsForReply (fetch : String → FetchResult) (n : ReplyNote) :
    ReplyNote :=
  let e := resolveRelated fetch n.Id
  { n with relatedRecordsDisplay := e.1, linkedRecords := some e.2,
           isLoading := false }

/-- `loadAllRelatedRecords` (noteComponent.js lines 203–217), textually identical to
the note.js one. -/
def loadAllRelatedRecords (fetch : String → FetchResult)
    (roots : List ParentNote) : List ParentNote :=
  roots.map (fun r =>
    { loadRelatedRecordsForNote fetch r with
        replies := r.replies.map (loadRelatedRecordsForReply fetch) })

/-- `processNotes` of `src/noteComponent.js` (lines 97–201). -/
def processNotes (formatDate : String → String) (prior : List ParentNote)
    (fetch : String → FetchResult) (raw : RawNotes) : List ParentNote :=
  match raw with
  | .nullish => []
  | .nonArray => []
  | .arr rawNotes => loadAllRelatedRecords fetch (buildNotes formatDate prior rawNotes)

end NoteComponent

/-! Helper projections: a root node with its reply list stripped.  The second pass
and the enrichment step change nothing a projection removes, which packages the
"first pass alone decides every root-level field" facts. -/

/-- A part_000 root with its replies stripped. -/
def pzErased (r : PartZero.ParentNote) : PartZero.ParentNote :=
  { r with replies := [] }

/-- A note.js root with its replies stripped. -/
def njErased (r : NoteJs.ParentNote) : NoteJs.ParentNote :=
  { r with replies := [] }

/-- A noteComponent root with its replies and its reply-count button label
stripped (the label pass rewrites the label from the reply count, so only the
remaining fields are invariant from the first pass on). -/
def ncErased (r : NoteComponent.ParentNote) : NoteComponent.ParentNote :=
  { r with replies := [], repliesButtonLabel := "" }

/-- Resolved enrichment outcome of a note.js parent node: the fetch settled
successfully and the node carries one of the two success shapes. -/
def NoteJs.ResolvedP (r : NoteJs.ParentNote) : Prop :=
  r.isLoading = false ∧
  ((r.relatedRecordsDisplay = "Current record only" ∧ r.linkedRecords = some []) ∨
   (∃ rs, rs ≠ [] ∧ r.linkedRecords = some rs ∧
     r.relatedRecordsDisplay = String.intercalate ", " (rs.map LinkedRecord.Name)))

/-- Failed enrichment outcome of a note.js parent node. -/
def NoteJs.FailedP (r : NoteJs.ParentNote) : Prop :=
  r.isLoading = false ∧
  r.relatedRecordsDisplay = "Error loading related records" ∧
  r.linkedRecords = some []

/-- Resolved enrichment outcome of a note.js reply node. -/
def NoteJs.ResolvedR (r : NoteJs.ReplyNote) : Prop :=
  r.isLoading = false ∧
  ((r.relatedRecordsDisplay = "Current record only" ∧ r.linkedRecords = some []) ∨
   (∃ rs, rs ≠ [] ∧ r.linkedRecords = some rs ∧
     r.relatedRecordsDisplay = String.intercalate ", " (rs.map LinkedRecord.Name)))

/-- Failed enrichment outcome of a note.js reply node. -/
def NoteJs.FailedR (r : NoteJs.ReplyNote) : Prop :=
  r.isLoading = false ∧
  r.relatedRecordsDisplay = "Error loading related records" ∧
  r.linkedRecords = some []

/-! Concrete fixtures used by the witness theorems. -/

/-- A fixed host date formatter. -/
def wFd : String → String := fun _ => "Jan 01, 2024, 09:00 AM"

/-- A linked-record fetch that always resolves with an empty list. -/
def wFetch : String → FetchResult := fun _ => .ok []

/-- A fetch that rejects exactly for note id "B" and resolves empty elsewhere. -/
def wFetch4 : String → FetchResult := fun i => if i == "B" then .err else .ok []

def wLink1 : LinkedRecord := { Id := "L1", Name := "Acme", RelatedObject := "Account" }

def wLink2 : LinkedRecord := { Id := "L2", Name := "Beta", RelatedObject := "Case" }

/-- A fetch that always resolves with two linked records. -/
def wFetch6 : String → FetchResult := fun _ => .ok [wLink1, wLink2]

def wNoteA : NoteRecord :=
  { Id := "A", Title__c := "ta", Category__c := "General", Body__c := "ba",
    Parent_Note__c := none, Is_Reply__c := false, Thread_Count__c := some 1,
    CreatedDate := "2024-01-01T09:00:00Z", CreatedBy := "alice" }

def wNoteB : NoteRecord :=
  { Id := "B", Title__c := "tb", Category__c := "General", Body__c := "bb",
    Parent_Note__c := some "A", Is_Reply__c := true, Thread_Count__c := none,
    CreatedDate := "2024-01-02T09:00:00Z", CreatedBy := "bob" }

/-- The orphan of the spec scenario: a reply whose parent "X" is no root. -/
def wNoteC : NoteRecord :=
  { Id := "C", Title__c := "tc", Category__c := "General", Body__c := "bc",
    Parent_Note__c := some "X", Is_Reply__c := true, Thread_Count__c := none,
    CreatedDate := "2024-01-03T09:00:00Z", CreatedBy := "carol" }

def wNoteD : NoteRecord :=
  { Id := "D", Title__c := "td", Category__c := "General", Body__c := "bd",
    Parent_Note__c := none, Is_Reply__c := false, Thread_Count__c := some 0,
    CreatedDate := "not a date", CreatedBy := "dave" }

def wNoteE : NoteRecord :=
  { Id := "E", Title__c := "te", Category__c := "General", Body__c := "be",
    Parent_Note__c := some "D", Is_Reply__c := true, Thread_Count__c := none,
    CreatedDate := "2024-01-05T09:00:00Z", CreatedBy := "eve" }

/-- The spec's scenario input: root A, reply B → A, orphan C → X. -/
def wRaw2 : List NoteRecord := [wNoteA, wNoteB, wNoteC]

/-- Two roots with interleaved replies, for order preservation. -/
def wRaw3 : List NoteRecord := [wNoteA, wNoteB, wNoteD, wNoteE]

def wNoteR1 : NoteRecord :=
  { Id := "R1", Title__c := "r1", Category__c := "General", Body__c := "b1",
    Parent_Note__c := none, Is_Reply__c := false, Thread_Count__c := none,
    CreatedDate := "2024-02-01T09:00:00Z", CreatedBy := "rita" }

def wNoteR2 : NoteRecord :=
  { Id := "R2", Title__c := "r2", Category__c := "General", Body__c := "b2",
    Parent_Note__c := none, Is_Reply__c := false, Thread_Count__c := none,
    CreatedDate := "2024-02-02T09:00:00Z", CreatedBy := "ron" }

/-- Rebuild input still containing R1 plus the brand-new root R2. -/
def wRaw5 : List NoteRecord := [wNoteR1, wNoteR2]

/-- A prior snapshot root "R1" with `repliesExpanded = true`. -/
def wPrior5 : NoteJs.ParentNote :=
  { Id := "R1", Title__c := "r1", titleWithDate := "r1 old", Category__c := "General",
    Body__c := "b1", Parent_Note__c := none, Is_Reply__c := false,
    Thread_Count__c := none, CreatedDate := "2024-02-01T09:00:00Z",
    CreatedBy := "rita", relatedRecordsDisplay := "Current record only",
    linkedRecords := some [], isLoading := false, replies := [],
    repliesExpanded := true, repliesSectionClass := "slds-section slds-is-open" }

/-- A prior noteComponent snapshot root "R1" with both expansion flags away from
their defaults: `repliesExpanded = true` (default false) and `isExpanded = false`
(default true). -/
def wNCPrior5 : NoteComponent.ParentNote :=
  { Id := "R1", Title__c := "r1", titleWithDate := "r1 - old",
    formattedDateTime := "old", Category__c := "General", Body__c := "b1",
    Parent_Note__c := none, Is_Reply__c := false, Thread_Count__c := none,
    CreatedDate := "2024-02-01T09:00:00Z", CreatedBy := "rita",
    relatedRecordsDisplay := "Current record only", linkedRecords := some [],
    isLoading := false, replies := [], repliesExpanded := true,
    repliesSectionClass := "slds-section slds-is-open",
    repliesButtonLabel := "", isExpanded := false }

/-- A hand-built note.js reply node (id "B"), still unresolved. -/
def wReplyB : NoteJs.ReplyNote :=
  { Id := "B", Title__c := "tb", Category__c := "General", Body__c := "bb",
    Parent_Note__c := some "A", Is_Reply__c := true, Thread_Count__c := none,
    CreatedDate := "2024-01-02T09:00:00Z", CreatedBy := "bob",
    relatedRecordsDisplay := "", linkedRecords := none, isLoading := true }

/-- A hand-built note.js parent node (id "A") with one reply, still unresolved. -/
def wParentA : NoteJs.ParentNote :=
  { Id := "A", Title__c := "ta", titleWithDate := "ta date", Category__c := "General",
    Body__c := "ba", Parent_Note__c := none, Is_Reply__c := false,
    Thread_Count__c := some 1, CreatedDate := "2024-01-01T09:00:00Z",
    CreatedBy := "alice", relatedRecordsDisplay := "", linkedRecords := none,
    isLoading := true, replies := [wReplyB], repliesExpanded := false,
    repliesSectionClass := "slds-section slds-is-close" }

/-- A hand-built note.js parent node (id "B") with no replies, still unresolved. -/
def wParentB : NoteJs.ParentNote :=
  { Id := "B", Title__c := "tb", titleWithDate := "tb date", Category__c := "General",
    Body__c := "bb", Parent_Note__c := none, Is_Reply__c := false,
    Thread_Count__c := none, CreatedDate := "2024-01-02T09:00:00Z",
    CreatedBy := "bob", relatedRecordsDisplay := "", linkedRecords := none,
    isLoading := true, replies := [], repliesExpanded := false,
    repliesSectionClass := "slds-section slds-is-close" }

/-- A hand-built noteComponent reply node, still unresolved. -/
def wNCReply : NoteComponent.ReplyNote :=
  { Id := "B", Title__c := "tb", Category__c := "General", Body__c := "bb",
    Parent_Note__c := some "A", Is_Reply__c := true, Thread_Count__c := none,
    CreatedDate := "2024-01-02T09:00:00Z", CreatedBy := "bob",
    relatedRecordsDisplay := "", linkedRecords := none, isLoading := true }

/-- A hand-built noteComponent parent node with one reply, still unresolved. -/
def wNCParent : NoteComponent.ParentNote :=
  { Id := "A", Title__c := "ta", titleWithDate := "ta - date",
    formattedDateTime := "date", Category__c := "General", Body__c := "ba",
    Parent_Note__c := none, Is_Reply__c := false, Thread_Count__c := some 1,
    CreatedDate := "2024-01-01T09:00:00Z", CreatedBy := "alice",
    relatedRecordsDisplay := "", linkedRecords := none, isLoading := true,
    replies := [wNCReply], repliesExpanded := false,
    repliesSectionClass := "slds-section slds-is-close",
    repliesButtonLabel := "1 reply", isExpanded := true }

/-- A note.js component state holding a non-empty snapshot. -/
def wSt8 : NoteJs.ComponentState :=
  { recordId := some "001xx0000000001", objectApiName := some "Account",
    notes := [wParentA], isLoading := false, toasts := [] }

/-- A part_000 component state holding a non-empty snapshot. -/
def wSt8p : PartZero.ComponentState :=
  { recordId := some "001xx0000000001", objectApiName := some "Account",
    notes := [PartZero.mkParentNote wNoteA], toasts := [] }

/-- The root node part_000's build produces for `wNoteA` from `wRaw2`/`wRaw3`. -/
def wOutRootA : PartZero.ParentNote :=
  { PartZero.mkParentNote wNoteA with replies := [PartZero.mkReplyNote wNoteB] }

/-! Lemmas about the part_000 second pass. -/

theorem pz_pushReplyLast_erased (roots : List PartZero.ParentNote) (p : String)
    (rep : PartZero.ReplyNote) :
    (PartZero.pushReplyLast roots p rep).map pzErased = roots.map pzErased := by
  induction roots with
  | nil => rfl
  | cons a rs ih =>
    by_cases h1 : rs.any (fun q => q.Id == p) = true
    · simp only [PartZero.pushReplyLast, h1, if_true, List.map_cons, ih]
    · by_cases h2 : (a.Id == p) = true
      · simp only [PartZero.pushReplyLast, h1, h2, if_true, if_false,
          Bool.false_eq_true, List.map_cons]
        rfl
      · simp [PartZero.pushReplyLast, h1, h2, ih]

theorem pz_addReply_erased (roots : List PartZero.ParentNote) (n : NoteRecord) :
    (PartZero.addReply roots n).map pzErased = roots.map pzErased := by
  simp only [PartZero.addReply]
  split
  · split
    · exact pz_pushReplyLast_erased ..
    · rfl
  · rfl

theorem pz_addReplies_erased (ns : List NoteRecord) :
    ∀ roots : List PartZero.ParentNote,
      (PartZero.addReplies ns roots).map pzErased = roots.map pzErased := by
  induction ns with
  | nil => intro roots; rfl
  | cons n ns ih =>
    intro roots
    simp only [PartZero.addReplies]
    rw [ih, pz_addReply_erased]

theorem pz_erased_any (l1 l2 : List PartZero.ParentNote)
    (h : l1.map pzErased = l2.map pzErased) (p : String) :
    l1.any (fun q => q.Id == p) = l2.any (fun q => q.Id == p) := by
  have h1 : l1.any (fun q => q.Id == p) =
      (l1.map pzErased).any (fun q => q.Id == p) := by
    rw [List.any_map]; rfl
  have h2 : l2.any (fun q => q.Id == p) =
      (l2.map pzErased).any (fun q => q.Id == p) := by
    rw [List.any_map]; rfl
  rw [h1, h2, h]

theorem pz_pushReplyLast_mem :
    ∀ (roots : List PartZero.ParentNote) (p : String) (rep : PartZero.ReplyNote)
      (r : PartZero.ParentNote), r ∈ PartZero.pushReplyLast roots p rep →
      r ∈ roots ∨ ∃ r0, r0 ∈ roots ∧ r = { r0 with replies := r0.replies ++ [rep] } := by
  intro roots p rep
  induction roots with
  | nil => intro r h; simp [PartZero.pushReplyLast] at h
  | cons a rs ih =>
    intro r h
    simp only [PartZero.pushReplyLast] at h
    split at h
    · rcases List.mem_cons.mp h with h1 | h1
      · exact Or.inl (by simp [h1])
      · rcases ih r h1 with h2 | ⟨r0, h3, h4⟩
        · exact Or.inl (List.mem_cons_of_mem _ h2)
        · exact Or.inr ⟨r0, List.mem_cons_of_mem _ h3, h4⟩
    · split at h
      · rcases List.mem_cons.mp h with h1 | h1
        · exact Or.inr ⟨a, List.mem_cons_self _ _, h1⟩
        · exact Or.inl (List.mem_cons_of_mem _ h1)
      · rcases List.mem_cons.mp h with h1 | h1
        · exact Or.inl (by simp [h1])
        · rcases ih r h1 with h2 | ⟨r0, h3, h4⟩
          · exact Or.inl (List.mem_cons_of_mem _ h2)
          · exact Or.inr ⟨r0, List.mem_cons_of_mem _ h3, h4⟩

/-- Every reply found in the output of the second pass was either already attached,
or comes from an input record that passed the `Is_Reply__c && noteMap.has(parent)`
guard (phrased against the initial roots, whose ids the pass preserves). -/
theorem pz_addReplies_reply_mem :
    ∀ (ns : List NoteRecord) (roots : List PartZero.ParentNote)
      (r : PartZero.ParentNote), r ∈ PartZero.addReplies ns roots →
      ∀ x ∈ r.replies,
        (∃ r0 ∈ roots, x ∈ r0.replies) ∨
        (∃ n ∈ ns, n.Is_Reply__c = true ∧
          (∃ p, n.Parent_Note__c = some p ∧
            roots.any (fun q => q.Id == p) = true) ∧
          x = PartZero.mkReplyNote n) := by
  intro ns
  induction ns with
  | nil =>
    intro roots r hr x hx
    exact Or.inl ⟨r, hr, hx⟩
  | cons n ns ih =>
    intro roots r hr x hx
    simp only [PartZero.addReplies] at hr
    rcases ih (PartZero.addReply roots n) r hr x hx with ⟨r0, hr0, hx0⟩ | ⟨m, hm, h1, ⟨p, h2, h3⟩, h4⟩
    · -- the reply was already present after the single `addReply` step
      revert hr0
      simp only [PartZero.addReply]
      split
      · split
        · intro hr0
          next heq =>
            rcases pz_pushReplyLast_mem roots _ _ r0 hr0 with h5 | ⟨r1, h5, h6⟩
            · exact Or.inl ⟨r0, h5, hx0⟩
            · rw [h6] at hx0
              simp only [List.mem_append, List.mem_singleton] at hx0
              rcases hx0 with hx1 | hx1
              · exact Or.inl ⟨r1, h5, hx1⟩
              · rcases (Bool.and_eq_true _ _).mp heq with ⟨hrep, hany⟩
                exact Or.inr ⟨n, List.mem_cons_self _ _, hrep,
                  ⟨_, by assumption, hany⟩, hx1⟩
        · intro hr0; exact Or.inl ⟨r0, hr0, hx0⟩
      · intro hr0; exact Or.inl ⟨r0, hr0, hx0⟩
    · -- the reply came from a later record; its guard transfers to the old roots
      refine Or.inr ⟨m, List.mem_cons_of_mem _ hm, h1, ⟨p, h2, ?_⟩, h4⟩
      rw [← pz_erased_any roots (PartZero.addReply roots n)
        (pz_addReply_erased roots n).symm p] at h3
      exact h3

theorem pz_erased_ids (l1 l2 : List PartZero.ParentNote)
    (h : l1.map pzErased = l2.map pzErased) :
    l1.map PartZero.ParentNote.Id = l2.map PartZero.ParentNote.Id := by
  have h1 : l1.map PartZero.ParentNote.Id =
      (l1.map pzErased).map PartZero.ParentNote.Id := by rw [List.map_map]; rfl
  have h2 : l2.map PartZero.ParentNote.Id =
      (l2.map pzErased).map PartZero.ParentNote.Id := by rw [List.map_map]; rfl
  rw [h1, h2, h]

/-- With the root ids distinct, `noteMap.get(p).replies.push(rep)` is the pointwise
update of the unique root whose id is `p`. -/
theorem pz_pushReplyLast_eq (roots : List PartZero.ParentNote) (p : String)
    (rep : PartZero.ReplyNote) (h : (roots.map PartZero.ParentNote.Id).Nodup) :
    PartZero.pushReplyLast roots p rep =
      roots.map (fun r =>
        if r.Id == p then { r with replies := r.replies ++ [rep] } else r) := by
  induction roots with
  | nil => rfl
  | cons a rs ih =>
    simp only [List.map_cons, List.nodup_cons] at h
    obtain ⟨ha, hrs⟩ := h
    by_cases h1 : rs.any (fun q => q.Id == p) = true
    · have hne : (a.Id == p) = false := by
        rcases List.any_eq_true.mp h1 with ⟨q, hq, hqp⟩
        have hqid : q.Id = p := beq_iff_eq.mp hqp
        refine beq_eq_false_iff_ne.mpr fun he => ha ?_
        rw [he, ← hqid]
        exact List.mem_map_of_mem _ hq
      simp only [PartZero.pushReplyLast, h1, if_true, List.map_cons, hne,
        Bool.false_eq_true, if_false]
      rw [ih hrs]
    · by_cases h2 : (a.Id == p) = true
      · have hmap : rs.map (fun r =>
            if r.Id == p then { r with replies := r.replies ++ [rep] } else r) = rs := by
          have hall : ∀ r ∈ rs, (if r.Id == p then
              ({ r with replies := r.replies ++ [rep] } : PartZero.ParentNote)
            else r) = r := by
            intro r hr
            have hf : (r.Id == p) = false := by
              by_contra hc
              exact h1 (List.any_eq_true.mpr ⟨r, hr, by simpa using hc⟩)
            simp [hf]
          rw [List.map_congr_left hall, List.map_id']
        simp only [PartZero.pushReplyLast, h1, Bool.false_eq_true, if_false, h2,
          if_true, List.map_cons, hmap]
      · simp only [PartZero.pushReplyLast, h1, h2, Bool.false_eq_true, if_false,
          List.map_cons]
        rw [ih hrs]

/-- One record of the second pass, against the spec-level filter formulation:
processing record `n` first and then the rest equals filtering `n :: ns`. -/
theorem pz_addReply_map_filter (n : NoteRecord) (ns : List NoteRecord) :
    ∀ roots : List PartZero.ParentNote, (roots.map PartZero.ParentNote.Id).Nodup →
      (PartZero.addReply roots n).map (fun r =>
        { r with replies := r.replies ++
            ((ns.filter (fun m : NoteRecord => m.Is_Reply__c && (m.Parent_Note__c == some r.Id))).map
              PartZero.mkReplyNote) }) =
      roots.map (fun r =>
        { r with replies := r.replies ++
            (((n :: ns).filter (fun m =>
              m.Is_Reply__c && (m.Parent_Note__c == some r.Id))).map
              PartZero.mkReplyNote) }) := by
  intro roots hnd
  rcases hpar : n.Parent_Note__c with _ | p
  · -- parent absent: the record is skipped by the pass and by every filter
    have hskip : PartZero.addReply roots n = roots := by
      simp [PartZero.addReply, hpar]
    rw [hskip]
    refine List.map_congr_left fun r _ => ?_
    simp [List.filter_cons, hpar]
  · by_cases hrep : n.Is_Reply__c = true
    · by_cases hkn : roots.any (fun q => q.Id == p) = true
      · -- guarded push onto the unique root whose id is the parent link
        have hstep : PartZero.addReply roots n =
            PartZero.pushReplyLast roots p (PartZero.mkReplyNote n) := by
          simp [PartZero.addReply, hpar, hrep, hkn]
        rw [hstep, pz_pushReplyLast_eq roots p _ hnd, List.map_map]
        refine List.map_congr_left fun r _ => ?_
        by_cases hid : (r.Id == p) = true
        · have hpid : p = r.Id := (beq_iff_eq.mp hid).symm
          simp only [Function.comp, hid, if_true, List.filter_cons, hpar, hrep,
            hpid, List.map_cons]
          simp
        · have hne2 : ((some p == some r.Id) : Bool) = false := by
            refine beq_eq_false_iff_ne.mpr ?_
            simp only [ne_eq, Option.some.injEq]
            intro he
            rw [he] at hid
            simp at hid
          simp only [Function.comp, hid, Bool.false_eq_true, if_false,
            List.filter_cons, hpar, hrep, hne2]
          simp
      · -- parent unknown to the map: dropped, and no root's filter matches it
        have hskip : PartZero.addReply roots n = roots := by
          simp [PartZero.addReply, hpar, hkn]
        rw [hskip]
        refine List.map_congr_left fun r hr => ?_
        have hne2 : ((some p == some r.Id) : Bool) = false := by
          refine beq_eq_false_iff_ne.mpr ?_
          simp only [ne_eq, Option.some.injEq]
          intro he
          exact hkn (List.any_eq_true.mpr ⟨r, hr, by simp [he]⟩)
        simp [List.filter_cons, hpar, hne2]
    · -- not a reply: skipped by the pass and by every filter
      have hrep0 : n.Is_Reply__c = false := by
        cases hIs : n.Is_Reply__c
        · rfl
        · exact absurd hIs hrep
      have hskip : PartZero.addReply roots n = roots := by
        simp [PartZero.addReply, hpar, hrep0]
      rw [hskip]
      refine List.map_congr_left fun r _ => ?_
      simp [List.filter_cons, hrep0]

/-- With distinct root ids the whole second pass equals the declarative
formulation: each root receives exactly its own replies, in input order. -/
theorem pz_addReplies_eq (ns : List NoteRecord) :
    ∀ roots : List PartZero.ParentNote, (roots.map PartZero.ParentNote.Id).Nodup →
      PartZero.addReplies ns roots = roots.map (fun r =>
        { r with replies := r.replies ++
            ((ns.filter (fun m : NoteRecord => m.Is_Reply__c && (m.Parent_Note__c == some r.Id))).map
              PartZero.mkReplyNote) }) := by
  induction ns with
  | nil =>
    intro roots _
    simp only [PartZero.addReplies, List.filter_nil, List.map_nil, List.append_nil]
    exact (List.map_id' roots).symm
  | cons n ns ih =>
    intro roots hnd
    have hids : ((PartZero.addReply roots n).map PartZero.ParentNote.Id).Nodup := by
      rw [pz_erased_ids _ _ (pz_addReply_erased roots n)]
      exact hnd
    simp only [PartZero.addReplies]
    rw [ih _ hids]
    exact pz_addReply_map_filter n ns roots hnd

/-- Every root of part_000's output keeps the id of some non-reply input record,
and no reply of the output has an id that belongs only to a guard-failing record:
the per-variant halves of the orphan-drop claim. -/
theorem pz_orphan_dropped (raw : List NoteRecord) (r : NoteRecord)
    (hrep : r.Is_Reply__c = true)
    (horphan : ∀ q ∈ raw, q.Is_Reply__c = false → some q.Id ≠ r.Parent_Note__c)
    (huniq : ∀ q ∈ raw, q.Id = r.Id → q = r) :
    ∀ root ∈ PartZero.processNotes (.arr raw),
      root.Id ≠ r.Id ∧ ∀ x ∈ root.replies, x.Id ≠ r.Id := by
  intro root hroot
  simp only [PartZero.processNotes] at hroot
  constructor
  · -- a root's id is the id of some non-reply record, which cannot be `r`
    intro hcontra
    have h1 : pzErased root ∈ (PartZero.addReplies raw
        ((raw.filter (fun n => !n.Is_Reply__c)).map PartZero.mkParentNote)).map
          pzErased := List.mem_map_of_mem _ hroot
    rw [pz_addReplies_erased] at h1
    rcases List.mem_map.mp h1 with ⟨r0, hr0, he⟩
    rcases List.mem_map.mp hr0 with ⟨q, hq, hq0⟩
    have hq2 := List.mem_filter.mp hq
    have hqid : q.Id = root.Id := by
      rw [← hq0] at he
      have h2 : (pzErased (PartZero.mkParentNote q)).Id = (pzErased root).Id := by
        rw [he]
      simpa [pzErased, PartZero.mkParentNote] using h2
    have hqr : q = r := huniq q hq2.1 (by rw [hqid, hcontra])
    rw [hqr] at hq2
    simp [hrep] at hq2
  · intro x hx hxid
    rcases pz_addReplies_reply_mem raw _ root hroot x hx with
      ⟨r0, hr0, hx0⟩ | ⟨n, hn, h1, ⟨p, h2, h3⟩, h4⟩
    · -- first-pass roots start with no replies
      rcases List.mem_map.mp hr0 with ⟨q, hq, hq0⟩
      rw [← hq0] at hx0
      simp [PartZero.mkParentNote] at hx0
    · -- the reply passed the guard, so its parent is a known root id — but the
      -- reply is `r` itself, whose parent matches no non-reply record
      have hnid : n.Id = r.Id := by
        rw [h4] at hxid
        simpa [PartZero.mkReplyNote] using hxid
      have hnr : n = r := huniq n hn hnid
      rcases List.any_eq_true.mp h3 with ⟨q0, hq0, hq0p⟩
      rcases List.mem_map.mp hq0 with ⟨q1, hq1, hq10⟩
      have hq12 := List.mem_filter.mp hq1
      have hq1rep : q1.Is_Reply__c = false := by
        have := hq12.2
        simpa using this
      have hq1id : q1.Id = p := by
        have h5 : q0.Id = p := beq_iff_eq.mp hq0p
        rw [← hq10] at h5
        simpa [PartZero.mkParentNote] using h5
      have h6 := horphan q1 hq12.1 hq1rep
      rw [hq1id] at h6
      rw [hnr] at h2
      exact h6 h2.symm

/-- C3: with the non-reply record ids distinct (the spec declares identities
globally unique), part_000's build preserves input order at both levels: the roots
(replies stripped) are the non-reply records mapped in input order, and every
root's reply list is the input-order sublist of reply records whose parent link is
that root's id — no re-sorting anywhere. -/
theorem claim_C3_input_order_preserved (raw : List NoteRecord)
    (h : ((raw.filter (fun n => !n.Is_Reply__c)).map NoteRecord.Id).Nodup) :
    (PartZero.processNotes (.arr raw)).map pzErased =
      (raw.filter (fun n => !n.Is_Reply__c)).map PartZero.mkParentNote ∧
    ∀ root ∈ PartZero.processNotes (.arr raw),
      root.replies =
        (raw.filter (fun m : NoteRecord =>
          m.Is_Reply__c && (m.Parent_Note__c == some root.Id))).map
          PartZero.mkReplyNote := by
  have hids : (((raw.filter (fun n => !n.Is_Reply__c)).map PartZero.mkParentNote).map
      PartZero.ParentNote.Id).Nodup := by
    rw [List.map_map]
    exact h
  constructor
  · simp only [PartZero.processNotes]
    rw [pz_addReplies_erased, List.map_map]
    rfl
  · intro root hroot
    simp only [PartZero.processNotes] at hroot
    rw [pz_addReplies_eq raw _ hids] at hroot
    rcases List.mem_map.mp hroot with ⟨r0, hr0, he⟩
    rcases List.mem_map.mp hr0 with ⟨q, _, hq0⟩
    subst he
    rw [← hq0]
    rfl

/-- C3 witness: the concrete list `[A, B → A, D, E → D]` — the theorem applied
there gives both order clauses; the second is instantiated at the concrete root
`A`, whose reply list is exactly `[B]`. -/
theorem claim_C3_witness :
    (PartZero.processNotes (.arr wRaw3)).map pzErased =
      (wRaw3.filter (fun n => !n.Is_Reply__c)).map PartZero.mkParentNote ∧
    wOutRootA.replies =
      (wRaw3.filter (fun m : NoteRecord =>
        m.Is_Reply__c && (m.Parent_Note__c == some wOutRootA.Id))).map
        PartZero.mkReplyNote := by
  have h := claim_C3_input_order_preserved wRaw3 (by decide)
  exact ⟨h.1, h.2 wOutRootA (by decide)⟩

/-- C7: the build step is a deterministic function of its inputs — two calls on
the same flat list with no prior snapshot (and, for note.js, the same host date
formatter and fetch environment) yield structurally identical trees.  In this pure
embedding both builds are functions: part_000's `processNotes` reads nothing but
its argument, and note.js's nothing but the prior snapshot (empty here) and the
two host collaborators, so equality of the two runs is definitional. -/
theorem claim_C7_build_deterministic (raw : List NoteRecord)
    (fd : String → String) (fetch : String → FetchResult) :
    PartZero.processNotes (.arr raw) = PartZero.processNotes (.arr raw) ∧
    NoteJs.processNotes fd [] fetch (.arr raw) =
      NoteJs.processNotes fd [] fetch (.arr raw) :=
  ⟨rfl, rfl⟩

/-- C10: on a null/undefined or non-array argument, `processNotes` of every
variant returns the empty root list (it cannot throw: it is total), so the caller
always receives an array. -/
theorem claim_C10_degenerate_input_empty :
    (PartZero.processNotes .nullish = [] ∧ PartZero.processNotes .nonArray = []) ∧
    (∀ (fd : String → String) (prior : List NoteJs.ParentNote)
        (fetch : String → FetchResult),
      NoteJs.processNotes fd prior fetch .nullish = [] ∧
      NoteJs.processNotes fd prior fetch .nonArray = []) ∧
    (∀ (fd : String → String) (prior : List NoteComponent.ParentNote)
        (fetch : String → FetchResult),
      NoteComponent.processNotes fd prior fetch .nullish = [] ∧
      NoteComponent.processNotes fd prior fetch .nonArray = []) :=
  ⟨⟨rfl, rfl⟩, fun _ _ _ => ⟨rfl, rfl⟩, fun _ _ _ => ⟨rfl, rfl⟩⟩

/-! Lemmas about the note.js second pass and enrichment. -/

theorem nj_pushReplyLast_erased (roots : List NoteJs.ParentNote) (p : String)
    (rep : NoteJs.ReplyNote) :
    (NoteJs.pushReplyLast roots p rep).map njErased = roots.map njErased := by
  induction roots with
  | nil => rfl
  | cons a rs ih =>
    by_cases h1 : rs.any (fun q => q.Id == p) = true
    · simp only [NoteJs.pushReplyLast, h1, if_true, List.map_cons, ih]
    · by_cases h2 : (a.Id == p) = true
      · simp only [NoteJs.pushReplyLast, h1, h2, if_true, if_false,
          Bool.false_eq_true, List.map_cons]
        rfl
      · simp [NoteJs.pushReplyLast, h1, h2, ih]

theorem nj_addReply_erased (roots : List NoteJs.ParentNote) (n : NoteRecord) :
    (NoteJs.addReply roots n).map njErased = roots.map njErased := by
  simp only [NoteJs.addReply]
  split
  · split
    · exact nj_pushReplyLast_erased ..
    · rfl
  · rfl

theorem nj_addReplies_erased (ns : List NoteRecord) :
    ∀ roots : List NoteJs.ParentNote,
      (NoteJs.addReplies ns roots).map njErased = roots.map njErased := by
  induction ns with
  | nil => intro roots; rfl
  | cons n ns ih =>
    intro roots
    simp only [NoteJs.addReplies]
    rw [ih, nj_addReply_erased]

theorem nj_lookupExpanded_found (prior : List NoteJs.ParentNote)
    (hnd : (prior.map NoteJs.ParentNote.Id).Nodup) (p : NoteJs.ParentNote)
    (hp : p ∈ prior) : NoteJs.lookupExpanded prior p.Id = p.repliesExpanded := by
  unfold NoteJs.lookupExpanded
  cases hfind : prior.reverse.find? (fun q => q.Id == p.Id) with
  | none =>
    exfalso
    have h := List.find?_eq_none.mp hfind p (List.mem_reverse.mpr hp)
    simp at h
  | some q =>
    have hq0 := List.find?_some hfind
    have hq1 : q.Id = p.Id := by simpa using hq0
    have hq2 : q ∈ prior := List.mem_reverse.mp (List.mem_of_find?_eq_some hfind)
    have hqp : q = p := List.inj_on_of_nodup_map hnd hq2 hp hq1
    rw [hqp]

theorem nj_lookupExpanded_absent (prior : List NoteJs.ParentNote) (i : String)
    (h : ∀ p ∈ prior, p.Id ≠ i) : NoteJs.lookupExpanded prior i = false := by
  unfold NoteJs.lookupExpanded
  have hf : prior.reverse.find? (fun q => q.Id == i) = none :=
    List.find?_eq_none.mpr fun x hx => by
      simpa using h x (List.mem_reverse.mp hx)
  rw [hf]

/-- Every root of the full note.js `processNotes` output originates from one
non-reply input record: it keeps that record's id, and its `repliesExpanded` flag
is exactly the prior-snapshot lookup made for that record in the first pass
(neither the second pass nor the enrichment touches the flag). -/
theorem nj_root_origin (fd : String → String) (prior : List NoteJs.ParentNote)
    (fetch : String → FetchResult) (raw : List NoteRecord) :
    ∀ root ∈ NoteJs.processNotes fd prior fetch (.arr raw),
      ∃ q ∈ raw.filter (fun n => !n.Is_Reply__c),
        root.Id = q.Id ∧
        root.repliesExpanded = NoteJs.lookupExpanded prior q.Id := by
  intro root hroot
  simp only [NoteJs.processNotes, NoteJs.loadAllRelatedRecords] at hroot
  rcases List.mem_map.mp hroot with ⟨r1, hr1, he⟩
  have hid : root.Id = r1.Id := by rw [← he]; rfl
  have hexp : root.repliesExpanded = r1.repliesExpanded := by rw [← he]; rfl
  simp only [NoteJs.buildNotes] at hr1
  have h1 : njErased r1 ∈ (NoteJs.addReplies raw
      ((raw.filter (fun n => !n.Is_Reply__c)).map
        (NoteJs.mkParentNote fd prior))).map njErased :=
    List.mem_map_of_mem _ hr1
  rw [nj_addReplies_erased] at h1
  rcases List.mem_map.mp h1 with ⟨r0, hr0, he0⟩
  rcases List.mem_map.mp hr0 with ⟨q, hq, hq0⟩
  refine ⟨q, hq, ?_, ?_⟩
  · rw [hid]
    have h2 : (njErased r0).Id = (njErased r1).Id := by rw [he0]
    rw [← hq0] at h2
    simpa [njErased, NoteJs.mkParentNote] using h2.symm
  · rw [hexp]
    have h2 : (njErased r0).repliesExpanded = (njErased r1).repliesExpanded := by
      rw [he0]
    rw [← hq0] at h2
    simpa [njErased, NoteJs.mkParentNote] using h2.symm

theorem nj_erased_any (l1 l2 : List NoteJs.ParentNote)
    (h : l1.map njErased = l2.map njErased) (p : String) :
    l1.any (fun q => q.Id == p) = l2.any (fun q => q.Id == p) := by
  have h1 : l1.any (fun q => q.Id == p) =
      (l1.map njErased).any (fun q => q.Id == p) := by
    rw [List.any_map]; rfl
  have h2 : l2.any (fun q => q.Id == p) =
      (l2.map njErased).any (fun q => q.Id == p) := by
    rw [List.any_map]; rfl
  rw [h1, h2, h]

theorem nj_pushReplyLast_mem :
    ∀ (roots : List NoteJs.ParentNote) (p : String) (rep : NoteJs.ReplyNote)
      (r : NoteJs.ParentNote), r ∈ NoteJs.pushReplyLast roots p rep →
      r ∈ roots ∨ ∃ r0, r0 ∈ roots ∧ r = { r0 with replies := r0.replies ++ [rep] } := by
  intro roots p rep
  induction roots with
  | nil => intro r h; simp [NoteJs.pushReplyLast] at h
  | cons a rs ih =>
    intro r h
    simp only [NoteJs.pushReplyLast] at h
    split at h
    · rcases List.mem_cons.mp h with h1 | h1
      · exact Or.inl (by simp [h1])
      · rcases ih r h1 with h2 | ⟨r0, h3, h4⟩
        · exact Or.inl (List.mem_cons_of_mem _ h2)
        · exact Or.inr ⟨r0, List.mem_cons_of_mem _ h3, h4⟩
    · split at h
      · rcases List.mem_cons.mp h with h1 | h1
        · exact Or.inr ⟨a, List.mem_cons_self _ _, h1⟩
        · exact Or.inl (List.mem_cons_of_mem _ h1)
      · rcases List.mem_cons.mp h with h1 | h1
        · exact Or.inl (by simp [h1])
        · rcases ih r h1 with h2 | ⟨r0, h3, h4⟩
          · exact Or.inl (List.mem_cons_of_mem _ h2)
          · exact Or.inr ⟨r0, List.mem_cons_of_mem _ h3, h4⟩

/-- note.js analogue of `pz_addReplies_reply_mem`: every reply attached by the
second pass comes from a record that passed the reply-and-known-parent guard. -/
theorem nj_addReplies_reply_mem :
    ∀ (ns : List NoteRecord) (roots : List NoteJs.ParentNote)
      (r : NoteJs.ParentNote), r ∈ NoteJs.addReplies ns roots →
      ∀ x ∈ r.replies,
        (∃ r0 ∈ roots, x ∈ r0.replies) ∨
        (∃ n ∈ ns, n.Is_Reply__c = true ∧
          (∃ p, n.Parent_Note__c = some p ∧
            roots.any (fun q => q.Id == p) = true) ∧
          x = NoteJs.mkReplyNote n) := by
  intro ns
  induction ns with
  | nil =>
    intro roots r hr x hx
    exact Or.inl ⟨r, hr, hx⟩
  | cons n ns ih =>
    intro roots r hr x hx
    simp only [NoteJs.addReplies] at hr
    rcases ih (NoteJs.addReply roots n) r hr x hx with
      ⟨r0, hr0, hx0⟩ | ⟨m, hm, h1, ⟨p, h2, h3⟩, h4⟩
    · revert hr0
      simp only [NoteJs.addReply]
      split
      · split
        · intro hr0
          next heq =>
            rcases nj_pushReplyLast_mem roots _ _ r0 hr0 with h5 | ⟨r1, h5, h6⟩
            · exact Or.inl ⟨r0, h5, hx0⟩
            · rw [h6] at hx0
              simp only [List.mem_append, List.mem_singleton] at hx0
              rcases hx0 with hx1 | hx1
              · exact Or.inl ⟨r1, h5, hx1⟩
              · rcases (Bool.and_eq_true _ _).mp heq with ⟨hrep, hany⟩
                exact Or.inr ⟨n, List.mem_cons_self _ _, hrep,
                  ⟨_, by assumption, hany⟩, hx1⟩
        · intro hr0; exact Or.inl ⟨r0, hr0, hx0⟩
      · intro hr0; exact Or.inl ⟨r0, hr0, hx0⟩
    · refine Or.inr ⟨m, List.mem_cons_of_mem _ hm, h1, ⟨p, h2, ?_⟩, h4⟩
      rw [← nj_erased_any roots (NoteJs.addReply roots n)
        (nj_addReply_erased roots n).symm p] at h3
      exact h3

/-- C2: a reply record whose parent-link matches the identity of no non-reply
record of the flat list is dropped silently by `processNotes` — for both cited
implementations, part_000's and note.js's (the latter for every prior snapshot,
date formatter and fetch environment): with its id unique in the input, no root
node and no reply node of either output carries the record's id, so it surfaces
nowhere in the tree. -/
theorem claim_C2_orphan_reply_dropped (raw : List NoteRecord) (r : NoteRecord)
    (_hmem : r ∈ raw) (hrep : r.Is_Reply__c = true)
    (horphan : ∀ q ∈ raw, q.Is_Reply__c = false → some q.Id ≠ r.Parent_Note__c)
    (huniq : ∀ q ∈ raw, q.Id = r.Id → q = r) :
    (∀ root ∈ PartZero.processNotes (.arr raw),
      root.Id ≠ r.Id ∧ ∀ x ∈ root.replies, x.Id ≠ r.Id) ∧
    (∀ (fd : String → String) (prior : List NoteJs.ParentNote)
        (fetch : String → FetchResult),
      ∀ root ∈ NoteJs.processNotes fd prior fetch (.arr raw),
        root.Id ≠ r.Id ∧ ∀ x ∈ root.replies, x.Id ≠ r.Id) := by
  constructor
  · exact pz_orphan_dropped raw r hrep horphan huniq
  · intro fd prior fetch root hroot
    constructor
    · -- a note.js root keeps the id of a non-reply record, which cannot be `r`
      intro hcontra
      rcases nj_root_origin fd prior fetch raw root hroot with ⟨q, hq, hid, _⟩
      have hq2 := List.mem_filter.mp hq
      have hqrep : q.Is_Reply__c = false := by simpa using hq2.2
      have hqr : q = r := huniq q hq2.1 (by rw [← hid]; exact hcontra)
      rw [hqr, hrep] at hqrep
      exact Bool.noConfusion hqrep
    · intro x hx hxid
      simp only [NoteJs.processNotes, NoteJs.loadAllRelatedRecords] at hroot
      rcases List.mem_map.mp hroot with ⟨r1, hr1, he⟩
      subst he
      replace hx : x ∈ r1.replies.map (NoteJs.loadRelatedRecordsForReply fetch) := hx
      rcases List.mem_map.mp hx with ⟨x0, hx0, hx0e⟩
      have hx0id : x0.Id = x.Id := by rw [← hx0e]; rfl
      simp only [NoteJs.buildNotes] at hr1
      rcases nj_addReplies_reply_mem raw _ r1 hr1 x0 hx0 with
        ⟨r0, hr0, hx00⟩ | ⟨n, hn, h1, ⟨p, h2, h3⟩, h4⟩
      · -- first-pass roots start with no replies
        rcases List.mem_map.mp hr0 with ⟨q, hq, hq0⟩
        rw [← hq0] at hx00
        simp [NoteJs.mkParentNote] at hx00
      · -- the reply passed the guard, so its parent is a known root id — but it
        -- is `r` itself, whose parent matches no non-reply record
        have hnid : n.Id = r.Id := by
          have h5 : (NoteJs.mkReplyNote n).Id = x.Id := by rw [← h4]; exact hx0id
          have h6 : n.Id = x.Id := by simpa [NoteJs.mkReplyNote] using h5
          rw [h6, hxid]
        have hnr : n = r := huniq n hn hnid
        rcases List.any_eq_true.mp h3 with ⟨q0, hq0, hq0p⟩
        rcases List.mem_map.mp hq0 with ⟨q1, hq1, hq10⟩
        have hq12 := List.mem_filter.mp hq1
        have hq1rep : q1.Is_Reply__c = false := by simpa using hq12.2
        have hq1id : q1.Id = p := by
          have h5 : q0.Id = p := beq_iff_eq.mp hq0p
          rw [← hq10] at h5
          simpa [NoteJs.mkParentNote] using h5
        have h6 := horphan q1 hq12.1 hq1rep
        rw [hq1id] at h6
        rw [hnr] at h2
        exact h6 h2.symm

/-- C2 witness: the spec scenario `[A, B → A, C → X]` — in part_000's output the
only root is `A` and its only reply is `B`, neither carrying the orphan's id `C`;
in note.js's output (no prior snapshot) the first root likewise. -/
theorem claim_C2_witness : (wOutRootA.Id ≠ wNoteC.Id ∧
    (PartZero.mkReplyNote wNoteB).Id ≠ wNoteC.Id) ∧
    ((NoteJs.processNotes wFd [] wFetch (.arr wRaw2)).get ⟨0, by decide⟩).Id ≠
      wNoteC.Id := by
  have h := claim_C2_orphan_reply_dropped wRaw2 wNoteC (by decide) (by decide)
    (by decide) (by decide)
  have hm : wOutRootA ∈ PartZero.processNotes (.arr wRaw2) := by decide
  exact ⟨⟨(h.1 wOutRootA hm).1, (h.1 wOutRootA hm).2 _ (by decide)⟩,
    (h.2 wFd [] wFetch _ (List.get_mem _ 0 (by decide))).1⟩

theorem nc_pushReplyLast_erased (roots : List NoteComponent.ParentNote) (p : String)
    (rep : NoteComponent.ReplyNote) :
    (NoteComponent.pushReplyLast roots p rep).map ncErased = roots.map ncErased := by
  induction roots with
  | nil => rfl
  | cons a rs ih =>
    by_cases h1 : rs.any (fun q => q.Id == p) = true
    · simp only [NoteComponent.pushReplyLast, h1, if_true, List.map_cons, ih]
    · by_cases h2 : (a.Id == p) = true
      · simp only [NoteComponent.pushReplyLast, h1, h2, if_true, if_false,
          Bool.false_eq_true, List.map_cons]
        rfl
      · simp [NoteComponent.pushReplyLast, h1, h2, ih]

theorem nc_addReply_erased (roots : List NoteComponent.ParentNote) (n : NoteRecord) :
    (NoteComponent.addReply roots n).map ncErased = roots.map ncErased := by
  simp only [NoteComponent.addReply]
  split
  · split
    · exact nc_pushReplyLast_erased ..
    · rfl
  · rfl

theorem nc_addReplies_erased (ns : List NoteRecord) :
    ∀ roots : List NoteComponent.ParentNote,
      (NoteComponent.addReplies ns roots).map ncErased = roots.map ncErased := by
  induction ns with
  | nil => intro roots; rfl
  | cons n ns ih =>
    intro roots
    simp only [NoteComponent.addReplies]
    rw [ih, nc_addReply_erased]

/-- The label pass rewrites only the reply-count button label. -/
theorem nc_setButtonLabel_fields (r : NoteComponent.ParentNote) :
    (NoteComponent.setButtonLabel r).Id = r.Id ∧
    (NoteComponent.setButtonLabel r).repliesExpanded = r.repliesExpanded ∧
    (NoteComponent.setButtonLabel r).isExpanded = r.isExpanded := by
  unfold NoteComponent.setButtonLabel
  split
  · exact ⟨rfl, rfl, rfl⟩
  · exact ⟨rfl, rfl, rfl⟩

theorem nc_lookupRepliesExpanded_found (prior : List NoteComponent.ParentNote)
    (hnd : (prior.map NoteComponent.ParentNote.Id).Nodup)
    (p : NoteComponent.ParentNote) (hp : p ∈ prior) :
    NoteComponent.lookupRepliesExpanded prior p.Id = p.repliesExpanded := by
  unfold NoteComponent.lookupRepliesExpanded
  cases hfind : prior.reverse.find? (fun q => q.Id == p.Id) with
  | none =>
    exfalso
    have h := List.find?_eq_none.mp hfind p (List.mem_reverse.mpr hp)
    simp at h
  | some q =>
    have hq0 := List.find?_some hfind
    have hq1 : q.Id = p.Id := by simpa using hq0
    have hq2 : q ∈ prior := List.mem_reverse.mp (List.mem_of_find?_eq_some hfind)
    have hqp : q = p := List.inj_on_of_nodup_map hnd hq2 hp hq1
    rw [hqp]

theorem nc_lookupRepliesExpanded_absent (prior : List NoteComponent.ParentNote)
    (i : String) (h : ∀ p ∈ prior, p.Id ≠ i) :
    NoteComponent.lookupRepliesExpanded prior i = false := by
  unfold NoteComponent.lookupRepliesExpanded
  have hf : prior.reverse.find? (fun q => q.Id == i) = none :=
    List.find?_eq_none.mpr fun x hx => by
      simpa using h x (List.mem_reverse.mp hx)
  rw [hf]

theorem nc_lookupIsExpanded_found (prior : List NoteComponent.ParentNote)
    (hnd : (prior.map NoteComponent.ParentNote.Id).Nodup)
    (p : NoteComponent.ParentNote) (hp : p ∈ prior) :
    NoteComponent.lookupIsExpanded prior p.Id = p.isExpanded := by
  unfold NoteComponent.lookupIsExpanded
  cases hfind : prior.reverse.find? (fun q => q.Id == p.Id) with
  | none =>
    exfalso
    have h := List.find?_eq_none.mp hfind p (List.mem_reverse.mpr hp)
    simp at h
  | some q =>
    have hq0 := List.find?_some hfind
    have hq1 : q.Id = p.Id := by simpa using hq0
    have hq2 : q ∈ prior := List.mem_reverse.mp (List.mem_of_find?_eq_some hfind)
    have hqp : q = p := List.inj_on_of_nodup_map hnd hq2 hp hq1
    rw [hqp]

theorem nc_lookupIsExpanded_absent (prior : List NoteComponent.ParentNote)
    (i : String) (h : ∀ p ∈ prior, p.Id ≠ i) :
    NoteComponent.lookupIsExpanded prior i = true := by
  unfold NoteComponent.lookupIsExpanded
  have hf : prior.reverse.find? (fun q => q.Id == i) = none :=
    List.find?_eq_none.mpr fun x hx => by
      simpa using h x (List.mem_reverse.mp hx)
  rw [hf]

/-- Every root of the full noteComponent `processNotes` output originates from one
non-reply input record, keeping that record's id and the two first-pass expansion
lookups (the second pass, the label pass and the enrichment all leave the three
fields untouched). -/
theorem nc_root_origin (fd : String → String)
    (prior : List NoteComponent.ParentNote) (fetch : String → FetchResult)
    (raw : List NoteRecord) :
    ∀ root ∈ NoteComponent.processNotes fd prior fetch (.arr raw),
      ∃ q ∈ raw.filter (fun n => !n.Is_Reply__c),
        root.Id = q.Id ∧
        root.repliesExpanded = NoteComponent.lookupRepliesExpanded prior q.Id ∧
        root.isExpanded = NoteComponent.lookupIsExpanded prior q.Id := by
  intro root hroot
  simp only [NoteComponent.processNotes, NoteComponent.loadAllRelatedRecords]
    at hroot
  rcases List.mem_map.mp hroot with ⟨r1, hr1, he⟩
  have hid : root.Id = r1.Id := by rw [← he]; rfl
  have hre : root.repliesExpanded = r1.repliesExpanded := by rw [← he]; rfl
  have hie : root.isExpanded = r1.isExpanded := by rw [← he]; rfl
  simp only [NoteComponent.buildNotes] at hr1
  rcases List.mem_map.mp hr1 with ⟨r2, hr2, he2⟩
  have hsb := nc_setButtonLabel_fields r2
  have h1 : ncErased r2 ∈ (NoteComponent.addReplies raw
      ((raw.filter (fun n => !n.Is_Reply__c)).map
        (NoteComponent.mkParentNote fd prior))).map ncErased :=
    List.mem_map_of_mem _ hr2
  rw [nc_addReplies_erased] at h1
  rcases List.mem_map.mp h1 with ⟨r0, hr0, he0⟩
  rcases List.mem_map.mp hr0 with ⟨q, hq, hq0⟩
  refine ⟨q, hq, ?_, ?_, ?_⟩
  · rw [hid, ← he2, hsb.1]
    have h2 : (ncErased r0).Id = (ncErased r2).Id := by rw [he0]
    rw [← hq0] at h2
    simpa [ncErased, NoteComponent.mkParentNote] using h2.symm
  · rw [hre, ← he2, hsb.2.1]
    have h2 : (ncErased r0).repliesExpanded = (ncErased r2).repliesExpanded := by
      rw [he0]
    rw [← hq0] at h2
    simpa [ncErased, NoteComponent.mkParentNote] using h2.symm
  · rw [hie, ← he2, hsb.2.2]
    have h2 : (ncErased r0).isExpanded = (ncErased r2).isExpanded := by rw [he0]
    rw [← hq0] at h2
    simpa [ncErased, NoteComponent.mkParentNote] using h2.symm

/-- C5: both cited variants resolve each root's expansion state by identity
against the prior snapshot (prior root ids distinct).  note.js: `repliesExpanded`
is carried over unchanged when the id occurs in the prior snapshot and defaults
to `false` (collapsed) otherwise.  noteComponent: `repliesExpanded` (default
`false`) and the main-note flag `isExpanded` (default `true`) are both carried
over unchanged when the id occurs, and both receive their documented defaults on
a brand-new root. -/
theorem claim_C5_expanded_state_carry_over (fd : String → String)
    (fetch : String → FetchResult) (raw : List NoteRecord) :
    (∀ prior : List NoteJs.ParentNote, (prior.map NoteJs.ParentNote.Id).Nodup →
      ∀ root ∈ NoteJs.processNotes fd prior fetch (.arr raw),
        (∀ p ∈ prior, p.Id = root.Id → root.repliesExpanded = p.repliesExpanded) ∧
        ((∀ p ∈ prior, p.Id ≠ root.Id) → root.repliesExpanded = false)) ∧
    (∀ prior : List NoteComponent.ParentNote,
        (prior.map NoteComponent.ParentNote.Id).Nodup →
      ∀ root ∈ NoteComponent.processNotes fd prior fetch (.arr raw),
        (∀ p ∈ prior, p.Id = root.Id →
          root.repliesExpanded = p.repliesExpanded ∧
          root.isExpanded = p.isExpanded) ∧
        ((∀ p ∈ prior, p.Id ≠ root.Id) →
          root.repliesExpanded = false ∧ root.isExpanded = true)) := by
  constructor
  · intro prior hnd root hroot
    rcases nj_root_origin fd prior fetch raw root hroot with ⟨q, _, hid, hexp⟩
    constructor
    · intro p hp hpid
      rw [hexp]
      have hq : q.Id = p.Id := by rw [← hid]; exact hpid.symm
      rw [hq]
      exact nj_lookupExpanded_found prior hnd p hp
    · intro hall
      rw [hexp]
      refine nj_lookupExpanded_absent prior q.Id fun p hp => ?_
      rw [← hid]
      exact hall p hp
  · intro prior hnd root hroot
    rcases nc_root_origin fd prior fetch raw root hroot with ⟨q, _, hid, hre, hie⟩
    constructor
    · intro p hp hpid
      have hq : q.Id = p.Id := by rw [← hid]; exact hpid.symm
      constructor
      · rw [hre, hq]
        exact nc_lookupRepliesExpanded_found prior hnd p hp
      · rw [hie, hq]
        exact nc_lookupIsExpanded_found prior hnd p hp
    · intro hall
      constructor
      · rw [hre]
        refine nc_lookupRepliesExpanded_absent prior q.Id fun p hp => ?_
        rw [← hid]
        exact hall p hp
      · rw [hie]
        refine nc_lookupIsExpanded_absent prior q.Id fun p hp => ?_
        rw [← hid]
        exact hall p hp

/-- C5 witness: prior snapshots holding an `R1` whose flags sit away from their
defaults (`repliesExpanded = true`; for noteComponent also `isExpanded = false`),
rebuilt over `[R1, R2]`: both variants carry `R1`'s flags over unchanged and give
the brand-new `R2` the defaults (`false`; for noteComponent `isExpanded = true`). -/
theorem claim_C5_witness :
    ((NoteJs.processNotes wFd [wPrior5] wFetch (.arr wRaw5)).get
      ⟨0, by decide⟩).repliesExpanded = wPrior5.repliesExpanded ∧
    ((NoteJs.processNotes wFd [wPrior5] wFetch (.arr wRaw5)).get
      ⟨1, by decide⟩).repliesExpanded = false ∧
    ((NoteComponent.processNotes wFd [wNCPrior5] wFetch (.arr wRaw5)).get
      ⟨0, by decide⟩).repliesExpanded = wNCPrior5.repliesExpanded ∧
    ((NoteComponent.processNotes wFd [wNCPrior5] wFetch (.arr wRaw5)).get
      ⟨0, by decide⟩).isExpanded = wNCPrior5.isExpanded ∧
    ((NoteComponent.processNotes wFd [wNCPrior5] wFetch (.arr wRaw5)).get
      ⟨1, by decide⟩).repliesExpanded = false ∧
    ((NoteComponent.processNotes wFd [wNCPrior5] wFetch (.arr wRaw5)).get
      ⟨1, by decide⟩).isExpanded = true := by
  have h := claim_C5_expanded_state_carry_over wFd wFetch wRaw5
  have hnj := h.1 [wPrior5] (by decide)
  have hnc := h.2 [wNCPrior5] (by decide)
  refine ⟨?_, ?_, ?_, ?_, ?_, ?_⟩
  · exact (hnj _ (List.get_mem _ 0 (by decide))).1 wPrior5 (by decide) (by decide)
  · exact (hnj _ (List.get_mem _ 1 (by decide))).2 (by decide)
  · exact ((hnc _ (List.get_mem _ 0 (by decide))).1 wNCPrior5 (by decide)
      (by decide)).1
  · exact ((hnc _ (List.get_mem _ 0 (by decide))).1 wNCPrior5 (by decide)
      (by decide)).2
  · exact ((hnc _ (List.get_mem _ 1 (by decide))).2 (by decide)).1
  · exact ((hnc _ (List.get_mem _ 1 (by decide))).2 (by decide)).2

/-- C1: once `loadAllRelatedRecords` has settled (modelled by the pure per-node
application of the settled fetch environment that the `Promise.all` join of both
variants awaits before the tree is returned), no root and no reply of the tree is
still `Unresolved`: every node's `isLoading` flag is cleared — in particular no
node has `isLoading = true` with an empty `relatedRecordsDisplay`. -/
theorem claim_C1_enrichment_completeness (fetch : String → FetchResult) :
    (∀ roots : List NoteJs.ParentNote,
      ∀ r ∈ NoteJs.loadAllRelatedRecords fetch roots,
        r.isLoading = false ∧ ∀ x ∈ r.replies, x.isLoading = false) ∧
    (∀ roots : List NoteComponent.ParentNote,
      ∀ r ∈ NoteComponent.loadAllRelatedRecords fetch roots,
        r.isLoading = false ∧ ∀ x ∈ r.replies, x.isLoading = false) := by
  constructor
  · intro roots r hr
    rcases List.mem_map.mp hr with ⟨r0, _, he⟩
    subst he
    refine ⟨rfl, ?_⟩
    intro x hx
    replace hx : x ∈ r0.replies.map (NoteJs.loadRelatedRecordsForReply fetch) := hx
    rcases List.mem_map.mp hx with ⟨x0, _, hx0⟩
    rw [← hx0]
    rfl
  · intro roots r hr
    rcases List.mem_map.mp hr with ⟨r0, _, he⟩
    subst he
    refine ⟨rfl, ?_⟩
    intro x hx
    replace hx : x ∈ r0.replies.map (NoteComponent.loadRelatedRecordsForReply fetch) :=
      hx
    rcases List.mem_map.mp hx with ⟨x0, _, hx0⟩
    rw [← hx0]
    rfl

/-- C1 witness: on a one-root-one-reply tree the enriched root — and, through the
theorem's reply clause, its reply — end with `isLoading = false`. -/
theorem claim_C1_witness :
    ((NoteJs.loadAllRelatedRecords wFetch [wParentA]).get
      ⟨0, by decide⟩).isLoading = false ∧
    ((((NoteJs.loadAllRelatedRecords wFetch [wParentA]).get
      ⟨0, by decide⟩).replies.get ⟨0, by decide⟩).isLoading = false) ∧
    ((NoteComponent.loadAllRelatedRecords wFetch [wNCParent]).get
      ⟨0, by decide⟩).isLoading = false := by
  have h := claim_C1_enrichment_completeness wFetch
  exact ⟨(h.1 [wParentA] _ (List.get_mem _ 0 (by decide))).1,
    (h.1 [wParentA] _ (List.get_mem _ 0 (by decide))).2 _ (List.get_mem _ 0 (by decide)),
    (h.2 [wNCParent] _ (List.get_mem _ 0 (by decide))).1⟩

theorem nj_resolve_err (fetch : String → FetchResult) (i : String)
    (h : fetch i = .err) :
    resolveRelated fetch i = ("Error loading related records", []) := by
  simp [resolveRelated, h]

theorem nj_resolve_ok_shapes (fetch : String → FetchResult) (i : String)
    (h : fetch i ≠ .err) :
    resolveRelated fetch i = ("Current record only", []) ∨
    ∃ rs, rs ≠ [] ∧
      resolveRelated fetch i =
        (String.intercalate ", " (rs.map LinkedRecord.Name), rs) := by
  cases hf : fetch i with
  | ok rs =>
    cases rs with
    | nil => exact Or.inl (by simp [resolveRelated, hf])
    | cons a l =>
      exact Or.inr ⟨a :: l, by simp, by simp [resolveRelated, hf]⟩
  | nullResult => exact Or.inl (by simp [resolveRelated, hf])
  | err => exact absurd hf h

theorem nj_parent_outcome (fetch : String → FetchResult) (b : String)
    (hb : fetch b = .err) (hok : ∀ i, i ≠ b → fetch i ≠ .err)
    (r0 : NoteJs.ParentNote) :
    ((NoteJs.loadRelatedRecordsForNote fetch r0).Id = b →
      NoteJs.FailedP (NoteJs.loadRelatedRecordsForNote fetch r0)) ∧
    ((NoteJs.loadRelatedRecordsForNote fetch r0).Id ≠ b →
      NoteJs.ResolvedP (NoteJs.loadRelatedRecordsForNote fetch r0)) := by
  constructor
  · intro hid
    have hid2 : r0.Id = b := hid
    have hf : fetch r0.Id = .err := by rw [hid2]; exact hb
    have hre := nj_resolve_err fetch r0.Id hf
    simp [NoteJs.FailedP, NoteJs.loadRelatedRecordsForNote, hre]
  · intro hid
    have hid2 : r0.Id ≠ b := hid
    rcases nj_resolve_ok_shapes fetch r0.Id (hok r0.Id hid2) with hA | ⟨rs, hrs, hB⟩
    · exact ⟨rfl, Or.inl (by constructor <;>
        simp [NoteJs.loadRelatedRecordsForNote, hA])⟩
    · exact ⟨rfl, Or.inr ⟨rs, hrs,
        by simp [NoteJs.loadRelatedRecordsForNote, hB],
        by simp [NoteJs.loadRelatedRecordsForNote, hB]⟩⟩

theorem nj_reply_outcome (fetch : String → FetchResult) (b : String)
    (hb : fetch b = .err) (hok : ∀ i, i ≠ b → fetch i ≠ .err)
    (x0 : NoteJs.ReplyNote) :
    ((NoteJs.loadRelatedRecordsForReply fetch x0).Id = b →
      NoteJs.FailedR (NoteJs.loadRelatedRecordsForReply fetch x0)) ∧
    ((NoteJs.loadRelatedRecordsForReply fetch x0).Id ≠ b →
      NoteJs.ResolvedR (NoteJs.loadRelatedRecordsForReply fetch x0)) := by
  constructor
  · intro hid
    have hid2 : x0.Id = b := hid
    have hf : fetch x0.Id = .err := by rw [hid2]; exact hb
    have hre := nj_resolve_err fetch x0.Id hf
    simp [NoteJs.FailedR, NoteJs.loadRelatedRecordsForReply, hre]
  · intro hid
    have hid2 : x0.Id ≠ b := hid
    rcases nj_resolve_ok_shapes fetch x0.Id (hok x0.Id hid2) with hA | ⟨rs, hrs, hB⟩
    · exact ⟨rfl, Or.inl (by constructor <;>
        simp [NoteJs.loadRelatedRecordsForReply, hA])⟩
    · exact ⟨rfl, Or.inr ⟨rs, hrs,
        by simp [NoteJs.loadRelatedRecordsForReply, hB],
        by simp [NoteJs.loadRelatedRecordsForReply, hB]⟩⟩

/-- C4: when the linked-record fetch rejects exactly for the id `b` and settles
successfully for every other id, enrichment is isolated: every node (root or
reply) whose id is `b` ends `Failed` — display "Error loading related records",
empty linked list — and every other node ends `Resolved` with one of the two
success shapes.  `loadAllRelatedRecords` is a total function here, which is the
model-level statement that the overall promise resolves instead of rejecting. -/
theorem claim_C4_single_failure_isolated (fetch : String → FetchResult) (b : String)
    (hb : fetch b = .err) (hok : ∀ i, i ≠ b → fetch i ≠ .err)
    (roots : List NoteJs.ParentNote) :
    ∀ r ∈ NoteJs.loadAllRelatedRecords fetch roots,
      (r.Id = b → NoteJs.FailedP r) ∧
      (r.Id ≠ b → NoteJs.ResolvedP r) ∧
      ∀ x ∈ r.replies,
        (x.Id = b → NoteJs.FailedR x) ∧ (x.Id ≠ b → NoteJs.ResolvedR x) := by
  intro r hr
  rcases List.mem_map.mp hr with ⟨r0, _, he⟩
  subst he
  have hpar := nj_parent_outcome fetch b hb hok r0
  refine ⟨?_, ?_, ?_⟩
  · intro hid
    have hF := hpar.1 hid
    exact ⟨hF.1, hF.2.1, hF.2.2⟩
  · intro hid
    have hR := hpar.2 hid
    exact ⟨hR.1, hR.2⟩
  · intro x hx
    replace hx : x ∈ r0.replies.map (NoteJs.loadRelatedRecordsForReply fetch) := hx
    rcases List.mem_map.mp hx with ⟨x0, _, hx0⟩
    subst hx0
    exact nj_reply_outcome fetch b hb hok x0

/-- C4 witness: two roots `A` and `B` with the fetch rejecting exactly for `"B"`:
the enriched `B` is `Failed`, the enriched `A` and the reply `B`… the reply of `A`
shares the failing id, so it is `Failed` too, while root `A` is `Resolved`. -/
theorem claim_C4_witness :
    NoteJs.ResolvedP ((NoteJs.loadAllRelatedRecords wFetch4 [wParentA, wParentB]).get
      ⟨0, by decide⟩) ∧
    NoteJs.FailedP ((NoteJs.loadAllRelatedRecords wFetch4 [wParentA, wParentB]).get
      ⟨1, by decide⟩) := by
  have h := claim_C4_single_failure_isolated wFetch4 "B" rfl
    (fun i hi => by
      intro hc
      unfold wFetch4 at hc
      rw [if_neg (by simpa using hi)] at hc
      exact FetchResult.noConfusion hc)
    [wParentA, wParentB]
  constructor
  · exact (h _ (List.get_mem _ 0 (by decide))).2.1 (by decide)
  · exact (h _ (List.get_mem _ 1 (by decide))).1 (by decide)

/-- C6: per-node success behaviour of `loadRelatedRecordsForNote`: a fetch that
resolves with a non-empty list makes the node `Resolved` with the record names
joined by ", " and the fetched list stored; a fetch that resolves with the empty
list makes it `Resolved` with "Current record only" and an empty list.  Stated for
both node shapes the duck-typed JS function is applied to. -/
theorem claim_C6_success_resolution (fetch : String → FetchResult) :
    (∀ (n : NoteJs.ParentNote) (rs : List LinkedRecord), fetch n.Id = .ok rs →
      (rs ≠ [] → NoteJs.loadRelatedRecordsForNote fetch n =
        { n with
          relatedRecordsDisplay := String.intercalate ", " (rs.map LinkedRecord.Name),
          linkedRecords := some rs, isLoading := false }) ∧
      (rs = [] → NoteJs.loadRelatedRecordsForNote fetch n =
        { n with
          relatedRecordsDisplay := "Current record only",
          linkedRecords := some [], isLoading := false })) ∧
    (∀ (n : NoteJs.ReplyNote) (rs : List LinkedRecord), fetch n.Id = .ok rs →
      (rs ≠ [] → NoteJs.loadRelatedRecordsForReply fetch n =
        { n with
          relatedRecordsDisplay := String.intercalate ", " (rs.map LinkedRecord.Name),
          linkedRecords := some rs, isLoading := false }) ∧
      (rs = [] → NoteJs.loadRelatedRecordsForReply fetch n =
        { n with
          relatedRecordsDisplay := "Current record only",
          linkedRecords := some [], isLoading := false })) := by
  constructor
  · intro n rs hf
    constructor
    · intro hne
      cases rs with
      | nil => exact absurd rfl hne
      | cons a l => simp [NoteJs.loadRelatedRecordsForNote, resolveRelated, hf]
    · intro he
      subst he
      simp [NoteJs.loadRelatedRecordsForNote, resolveRelated, hf]
  · intro n rs hf
    constructor
    · intro hne
      cases rs with
      | nil => exact absurd rfl hne
      | cons a l => simp [NoteJs.loadRelatedRecordsForReply, resolveRelated, hf]
    · intro he
      subst he
      simp [NoteJs.loadRelatedRecordsForReply, resolveRelated, hf]

/-- C6 witness: a fetch resolving with two records names the node "Acme, Beta";
the same theorem applied to the always-empty fetch yields "Current record only". -/
theorem claim_C6_witness :
    NoteJs.loadRelatedRecordsForNote wFetch6 wParentA =
      { wParentA with
        relatedRecordsDisplay := String.intercalate ", " ([wLink1, wLink2].map LinkedRecord.Name),
        linkedRecords := some [wLink1, wLink2], isLoading := false } ∧
    NoteJs.loadRelatedRecordsForNote wFetch wParentA =
      { wParentA with
        relatedRecordsDisplay := "Current record only",
        linkedRecords := some [], isLoading := false } :=
  ⟨((claim_C6_success_resolution wFetch6).1 wParentA [wLink1, wLink2] rfl).1
      (by decide),
   ((claim_C6_success_resolution wFetch).1 wParentA [] rfl).2 rfl⟩

/-! Length preservation of the passes, for the per-record degradation claim. -/

theorem nj_pushReplyLast_length (roots : List NoteJs.ParentNote) (p : String)
    (rep : NoteJs.ReplyNote) :
    (NoteJs.pushReplyLast roots p rep).length = roots.length := by
  induction roots with
  | nil => rfl
  | cons a rs ih =>
    simp only [NoteJs.pushReplyLast]
    split
    · simp [ih]
    · split
      · simp
      · simp [ih]

theorem nj_addReply_length (roots : List NoteJs.ParentNote) (n : NoteRecord) :
    (NoteJs.addReply roots n).length = roots.length := by
  simp only [NoteJs.addReply]
  split
  · split
    · exact nj_pushReplyLast_length ..
    · rfl
  · rfl

theorem nj_addReplies_length (ns : List NoteRecord) :
    ∀ roots : List NoteJs.ParentNote,
      (NoteJs.addReplies ns roots).length = roots.length := by
  induction ns with
  | nil => intro roots; rfl
  | cons n ns ih =>
    intro roots
    simp only [NoteJs.addReplies]
    rw [ih, nj_addReply_length]

theorem nc_pushReplyLast_length (roots : List NoteComponent.ParentNote) (p : String)
    (rep : NoteComponent.ReplyNote) :
    (NoteComponent.pushReplyLast roots p rep).length = roots.length := by
  induction roots with
  | nil => rfl
  | cons a rs ih =>
    simp only [NoteComponent.pushReplyLast]
    split
    · simp [ih]
    · split
      · simp
      · simp [ih]

theorem nc_addReply_length (roots : List NoteComponent.ParentNote) (n : NoteRecord) :
    (NoteComponent.addReply roots n).length = roots.length := by
  simp only [NoteComponent.addReply]
  split
  · split
    · exact nc_pushReplyLast_length ..
    · rfl
  · rfl

theorem nc_addReplies_length (ns : List NoteRecord) :
    ∀ roots : List NoteComponent.ParentNote,
      (NoteComponent.addReplies ns roots).length = roots.length := by
  induction ns with
  | nil => intro roots; rfl
  | cons n ns ih =>
    intro roots
    simp only [NoteComponent.addReplies]
    rw [ih, nc_addReply_length]

/-- C9: the build never fails as a whole and degrades only per record: for every
flat list — whatever the `CreatedDate` strings, since the host date formatter `fd`
is an arbitrary total function (`toLocaleDateString` yields "Invalid Date" on an
unparsable timestamp instead of throwing) — `processNotes` of note.js and of
noteComponent returns a tree with exactly one root per non-reply record; the only
records that can disappear are orphan replies. -/
theorem claim_C9_build_never_aborts (fd : String → String)
    (fetch : String → FetchResult) :
    (∀ (prior : List NoteJs.ParentNote) (raw : List NoteRecord),
      (NoteJs.processNotes fd prior fetch (.arr raw)).length =
        (raw.filter (fun n => !n.Is_Reply__c)).length) ∧
    (∀ (prior : List NoteComponent.ParentNote) (raw : List NoteRecord),
      (NoteComponent.processNotes fd prior fetch (.arr raw)).length =
        (raw.filter (fun n => !n.Is_Reply__c)).length) := by
  constructor
  · intro prior raw
    simp only [NoteJs.processNotes, NoteJs.loadAllRelatedRecords, List.length_map,
      NoteJs.buildNotes]
    rw [nj_addReplies_length]
    simp
  · intro prior raw
    simp only [NoteComponent.processNotes, NoteComponent.loadAllRelatedRecords,
      List.length_map, NoteComponent.buildNotes]
    rw [nc_addReplies_length]
    simp

/-- C8 counterexample: the claim says a failed initial fetch is propagated to the
caller as a rejected promise with no snapshot produced.  On the code, at the
concrete state `wSt8` (which holds a non-empty snapshot) a rejected `getNotes` is
caught inside `loadNotes`: the call resolves (`.ok`), surfaces only a toast, and
publishes the **empty** snapshot over the prior one. -/
theorem claim_C8_counterexample :
    NoteJs.loadNotes wFd (.error "boom") wFetch wSt8 =
      .ok { wSt8 with
            notes := [], isLoading := false,
            toasts := ["Failed to load notes: boom"] } ∧
    wSt8.notes ≠ [] := by
  constructor
  · rfl
  · decide

/-- C8 amended: if the initial flat-note fetch fails, `loadNotes` swallows the
rejection rather than propagating it — its promise resolves, a toast is appended,
and in the note.js variant the empty snapshot replaces `this.notes` (the part_000
variant leaves the prior notes untouched).  The caller never observes a rejected
promise. -/
theorem claim_C8_fetch_failure_swallowed (fd : String → String)
    (fetch : String → FetchResult) (msg : String)
    (st : NoteJs.ComponentState) (st0 : PartZero.ComponentState)
    (h1 : st.recordId.isSome = true) (h2 : st.objectApiName.isSome = true)
    (h3 : st0.recordId.isSome = true) (h4 : st0.objectApiName.isSome = true) :
    NoteJs.loadNotes fd (.error msg) fetch st =
      .ok { st with
            notes := [], isLoading := false,
            toasts := st.toasts ++ ["Failed to load notes: " ++ msg] } ∧
    PartZero.loadNotes (.error msg) st0 =
      .ok { st0 with toasts := st0.toasts ++ ["Failed to load notes: " ++ msg] } := by
  obtain ⟨a, ha⟩ := Option.isSome_iff_exists.mp h1
  obtain ⟨b, hb⟩ := Option.isSome_iff_exists.mp h2
  obtain ⟨c, hc⟩ := Option.isSome_iff_exists.mp h3
  obtain ⟨d, hd⟩ := Option.isSome_iff_exists.mp h4
  constructor
  · simp [NoteJs.loadNotes, ha, hb]
  · simp [PartZero.loadNotes, hc, hd]

/-- C8 witness: the amended behaviour applied at concrete states with the host
ids present. -/
theorem claim_C8_witness :
    NoteJs.loadNotes wFd (.error "e") wFetch wSt8 =
      .ok { wSt8 with
            notes := [], isLoading := false,
            toasts := wSt8.toasts ++ ["Failed to load notes: " ++ "e"] } ∧
    PartZero.loadNotes (.error "e") wSt8p =
      .ok { wSt8p with toasts := wSt8p.toasts ++ ["Failed to load notes: " ++ "e"] } :=
  claim_C8_fetch_failure_swallowed wFd wFetch "e" wSt8 wSt8p rfl rfl rfl rfl
